import Mathlib

/-!
Verification development for the streaming agent runtime in
`src/api/libs/agents/src/agent.rs` (the mode-driven recursive agent loop).

The Rust source is shallowly embedded as pure Lean functions:

* messages, tool calls and streaming deltas become inductive data types
  mirroring the `litellm` message shapes used by the agent;
* the broadcast stream becomes a `StreamState` (open flag + ordered event
  log); a `send` on a closed stream drops the event, exactly as the Rust
  `get_stream_sender()` failure path does;
* `MessageBuffer` and its flush, the delta accumulator, the tool dispatch
  loop, and `process_thread_with_depth` / `process_thread_streaming` /
  `process_thread` are translated function by function;
* wall-clock concerns (the 50 ms `should_flush` timer) are replaced by an
  adversarial flush schedule, and `Uuid::new_v4()` by a fixed fresh value,
  since no claim depends on the concrete values;
* the Braintrust trace client is absent (the `BRAINTRUST_CLIENT` lazy global
  is `None` when the environment variables are unset), so all trace emission
  is a no-op, matching a run without tracing configured.
-/

namespace Buster

/-! ## Data model: tool calls, messages, threads -/

/-- Mirror of `litellm::FunctionCall`: the name and raw JSON-text arguments of
one tool invocation requested by the LLM. -/
structure FunctionCall where
  name : String
  arguments : String
deriving DecidableEq, Repr

/-- Mirror of `litellm::ToolCall` (the materialized form produced by
`PendingToolCall::into_tool_call`; `code_interpreter` and `retrieval` are
always `None` there and are omitted). -/
structure ToolCall where
  id : String
  function : FunctionCall
  call_type : String
deriving DecidableEq, Repr

/-- Mirror of `litellm::MessageProgress`. -/
inductive MessageProgress
  | inProgress
  | complete
deriving DecidableEq, Repr

/-- Mirror of `litellm::AgentMessage` as used by the agent loop: the argument
order of `assistant` and `tool` follows the `AgentMessage::assistant(id,
content, tool_calls, progress, initial, name)` and `AgentMessage::tool(id,
content, tool_call_id, name, progress)` constructor calls in `agent.rs`. -/
inductive AgentMessage
  | developer (content : String)
  | user (content : String)
  | assistant (id : Option String) (content : Option String)
      (tool_calls : Option (List ToolCall)) (progress : MessageProgress)
      (initial : Option Bool) (name : Option String)
  | tool (id : Option String) (content : String) (tool_call_id : String)
      (name : Option String) (progress : MessageProgress)
  | done
deriving DecidableEq, Repr

/-- Mirror of `AgentThread`: id, user id and the ordered message history.
The two `Uuid`s are modelled as strings. -/
structure AgentThread where
  id : String
  user_id : String
  messages : List AgentMessage
deriving DecidableEq, Repr

/-- Recognizer for `AgentMessage::Developer`, used when the loop filters
previous developer messages out of the LLM request. -/
def AgentMessage.isDeveloper : AgentMessage → Bool
  | .developer _ => true
  | _ => false

/-- Content of an assistant message, `none` for every other variant. -/
def AgentMessage.assistantContent : AgentMessage → Option String
  | .assistant _ c _ _ _ _ => c
  | _ => none

/-! ## Streaming deltas and the pending-tool-call accumulator -/

/-- Mirror of the `function` part of `litellm::DeltaToolCall`. -/
structure DeltaFunctionCall where
  name : Option String := none
  arguments : Option String := none
deriving DecidableEq, Repr

/-- Mirror of `litellm::DeltaToolCall`: one fragmentary tool-call delta from
a streamed chunk.  `code_interpreter`/`retrieval` payloads are opaque. -/
structure DeltaToolCall where
  id : Option String := none
  call_type : Option String := none
  function : Option DeltaFunctionCall := none
  code_interpreter : Option String := none
  retrieval : Option String := none
deriving DecidableEq, Repr

/-- Mirror of `PendingToolCall` in `agent.rs` (the accumulator that merges
deltas with the same id before materializing a `ToolCall`). -/
structure PendingToolCall where
  id : Option String := none
  call_type : Option String := none
  function_name : Option String := none
  arguments : String := ""
  code_interpreter : Option String := none
  retrieval : Option String := none
deriving DecidableEq, Repr

/-- Mirror of `PendingToolCall::update_from_delta`: every `Some` field of the
delta overwrites the stored `id`/`call_type`/`function_name`, argument
fragments are appended, and a present `code_interpreter`/`retrieval` delta
resets the stored field to `None` (as the Rust code literally does). -/
def PendingToolCall.update_from_delta (p : PendingToolCall) (tc : DeltaToolCall) :
    PendingToolCall :=
  let p := match tc.id with
    | some i => { p with id := some i }
    | none => p
  let p := match tc.call_type with
    | some t => { p with call_type := some t }
    | none => p
  let p := match tc.function with
    | some f =>
      let p := match f.name with
        | some n => { p with function_name := some n }
        | none => p
      match f.arguments with
        | some a => { p with arguments := p.arguments ++ a }
        | none => p
    | none => p
  let p := if tc.code_interpreter.isSome then { p with code_interpreter := none } else p
  if tc.retrieval.isSome then { p with retrieval := none } else p

/-- Mirror of `PendingToolCall::into_tool_call`: missing `id`, name or type
become the empty string (`unwrap_or_default`). -/
def PendingToolCall.into_tool_call (p : PendingToolCall) : ToolCall :=
  { id := p.id.getD ""
    function := { name := p.function_name.getD "", arguments := p.arguments }
    call_type := p.call_type.getD "" }

/-- Merging a sequence of deltas that were routed to one `PendingToolCall`
(same id) is the fold of `update_from_delta` from the default accumulator,
exactly what the `buffer.tool_calls.entry(id).or_default()` +
`update_from_delta` loop performs for that id. -/
def merge_deltas (ds : List DeltaToolCall) : PendingToolCall :=
  ds.foldl PendingToolCall.update_from_delta {}

/-- Names carried by a delta sequence, in arrival order. -/
def delta_names (ds : List DeltaToolCall) : List String :=
  ds.filterMap fun d => d.function.bind DeltaFunctionCall.name

/-- Types carried by a delta sequence, in arrival order. -/
def delta_types (ds : List DeltaToolCall) : List String :=
  ds.filterMap DeltaToolCall.call_type

/-- Ids carried by a delta sequence, in arrival order. -/
def delta_ids (ds : List DeltaToolCall) : List String :=
  ds.filterMap DeltaToolCall.id

/-- Argument fragments carried by a delta sequence, in arrival order. -/
def delta_args (ds : List DeltaToolCall) : List String :=
  ds.filterMap fun d => d.function.bind DeltaFunctionCall.arguments

/-- Last-wins merge of a list of updates over a base optional value. -/
def last_wins (updates : List String) (base : Option String) : Option String :=
  match updates.getLast? with
  | some v => some v
  | none => base

/-! ### String helper lemmas -/

theorem str_append_assoc (a b c : String) : a ++ b ++ c = a ++ (b ++ c) := by
  rcases a with ⟨a⟩; rcases b with ⟨b⟩; rcases c with ⟨c⟩
  exact congrArg String.mk (List.append_assoc a b c)

theorem str_append_empty (a : String) : a ++ "" = a := by
  rcases a with ⟨a⟩
  exact congrArg String.mk (List.append_nil a)

theorem str_empty_append (a : String) : "" ++ a = a := by
  rcases a with ⟨a⟩
  exact congrArg String.mk (List.nil_append a)

theorem str_append_ne_empty_left (a b : String) (h : a ≠ "") : a ++ b ≠ "" := by
  rcases a with ⟨a⟩; rcases b with ⟨b⟩
  intro hab
  apply h
  have : a ++ b = ([] : List Char) := congrArg String.data hab
  rcases List.append_eq_nil.mp this with ⟨ha, _⟩
  exact congrArg String.mk ha

/-! ### Behaviour of a single `update_from_delta` -/

theorem update_from_delta_fields (p : PendingToolCall) (tc : DeltaToolCall) :
    (p.update_from_delta tc).id = last_wins (delta_ids [tc]) p.id ∧
    (p.update_from_delta tc).call_type = last_wins (delta_types [tc]) p.call_type ∧
    (p.update_from_delta tc).function_name = last_wins (delta_names [tc]) p.function_name ∧
    (p.update_from_delta tc).arguments = p.arguments ++ String.join (delta_args [tc]) := by
  obtain ⟨tid, tty, tfn, tci, tre⟩ := tc
  cases tid <;> cases tty <;>
    rcases tfn with _ | ⟨fn, fa⟩ <;>
    first
      | (cases tci <;> cases tre <;>
          refine ⟨rfl, rfl, rfl, ?_⟩ <;>
          simp [PendingToolCall.update_from_delta, delta_args, last_wins, String.join,
            str_append_empty])
      | (cases fn <;> cases fa <;> cases tci <;> cases tre <;>
          refine ⟨rfl, rfl, rfl, ?_⟩ <;>
          simp [PendingToolCall.update_from_delta, delta_args, last_wins, String.join,
            str_append_empty])

theorem getLast?_cons_isSome (x : α) (xs : List α) : (x :: xs).getLast?.isSome := by
  induction xs generalizing x with
  | nil => rfl
  | cons y ys ih => rw [List.getLast?_cons_cons]; exact ih y

theorem last_wins_cons (x : String) (xs : List String) (b : Option String) :
    last_wins (x :: xs) b = last_wins xs (some x) := by
  cases xs with
  | nil => rfl
  | cons y ys =>
    unfold last_wins
    rw [List.getLast?_cons_cons]
    cases h : (y :: ys).getLast? with
    | none =>
      have hs := getLast?_cons_isSome y ys
      rw [h] at hs
      simp at hs
    | some v => rfl

theorem last_wins_append (xs ys : List String) (b : Option String) :
    last_wins (xs ++ ys) b = last_wins ys (last_wins xs b) := by
  induction xs generalizing b with
  | nil => rfl
  | cons x xs ih => rw [List.cons_append, last_wins_cons, last_wins_cons, ih]

theorem last_wins_none (l : List String) : last_wins l none = l.getLast? := by
  unfold last_wins
  cases l.getLast? <;> rfl

theorem str_foldl_append (xs : List String) :
    ∀ init : String, xs.foldl (fun r s => r ++ s) init = init ++ String.join xs := by
  induction xs with
  | nil => intro init; exact (str_append_empty init).symm
  | cons x xs ih =>
    intro init
    have hx : String.join (x :: xs) = x ++ String.join xs := by
      show (x :: xs).foldl (fun r s => r ++ s) "" = _
      rw [List.foldl_cons, ih ("" ++ x), str_empty_append]
    rw [List.foldl_cons, ih (init ++ x), hx, str_append_assoc]

theorem str_join_cons (x : String) (xs : List String) :
    String.join (x :: xs) = x ++ String.join xs := by
  show (x :: xs).foldl (fun r s => r ++ s) "" = _
  rw [List.foldl_cons, str_foldl_append, str_empty_append]

theorem str_join_append (xs ys : List String) :
    String.join (xs ++ ys) = String.join xs ++ String.join ys := by
  show (xs ++ ys).foldl (fun r s => r ++ s) "" = _
  rw [List.foldl_append, str_foldl_append, str_foldl_append, str_empty_append]

/-! ### Head decompositions of the per-delta projections -/

theorem delta_ids_cons (d : DeltaToolCall) (ds : List DeltaToolCall) :
    delta_ids (d :: ds) = delta_ids [d] ++ delta_ids ds := by
  cases h : d.id <;> simp [delta_ids, List.filterMap_cons, h]

theorem delta_types_cons (d : DeltaToolCall) (ds : List DeltaToolCall) :
    delta_types (d :: ds) = delta_types [d] ++ delta_types ds := by
  cases h : d.call_type <;> simp [delta_types, List.filterMap_cons, h]

theorem delta_names_cons (d : DeltaToolCall) (ds : List DeltaToolCall) :
    delta_names (d :: ds) = delta_names [d] ++ delta_names ds := by
  cases h : d.function.bind DeltaFunctionCall.name <;>
    simp [delta_names, List.filterMap_cons, h]

theorem delta_args_cons (d : DeltaToolCall) (ds : List DeltaToolCall) :
    delta_args (d :: ds) = delta_args [d] ++ delta_args ds := by
  cases h : d.function.bind DeltaFunctionCall.arguments <;>
    simp [delta_args, List.filterMap_cons, h]

/-- Full characterization of folding `update_from_delta` over a delta
sequence, generalized over the starting accumulator. -/
theorem merge_foldl_spec (ds : List DeltaToolCall) : ∀ p : PendingToolCall,
    (ds.foldl PendingToolCall.update_from_delta p).id
        = last_wins (delta_ids ds) p.id ∧
    (ds.foldl PendingToolCall.update_from_delta p).call_type
        = last_wins (delta_types ds) p.call_type ∧
    (ds.foldl PendingToolCall.update_from_delta p).function_name
        = last_wins (delta_names ds) p.function_name ∧
    (ds.foldl PendingToolCall.update_from_delta p).arguments
        = p.arguments ++ String.join (delta_args ds) := by
  induction ds with
  | nil =>
    intro p
    exact ⟨rfl, rfl, rfl, (str_append_empty _).symm⟩
  | cons d ds ih =>
    intro p
    obtain ⟨h1, h2, h3, h4⟩ := ih (p.update_from_delta d)
    obtain ⟨g1, g2, g3, g4⟩ := update_from_delta_fields p d
    refine ⟨?_, ?_, ?_, ?_⟩
    · rw [List.foldl_cons, h1, delta_ids_cons, last_wins_append, g1]
    · rw [List.foldl_cons, h2, delta_types_cons, last_wins_append, g2]
    · rw [List.foldl_cons, h3, delta_names_cons, last_wins_append, g3]
    · rw [List.foldl_cons, h4, g4, str_append_assoc, delta_args_cons d ds, str_join_append]

/-- Delta that carries only a function name, used to exhibit the merge order. -/
def delta_named (n : String) : DeltaToolCall :=
  { function := some { name := some n } }

/-- C4 counterexample: merging two deltas whose first carries name `"alpha"`
and whose second carries name `"beta"` yields `"beta"` — the LAST delta wins,
so the claimed first-wins rule is false; the same holds for `call_type`. -/
theorem c4_counterexample :
    (merge_deltas [delta_named "alpha", delta_named "beta"]).function_name ≠ some "alpha" ∧
    (merge_deltas [delta_named "alpha", delta_named "beta"]).function_name = some "beta" ∧
    (merge_deltas [{ call_type := some "function" }, { call_type := some "custom" }]).call_type
        ≠ some "function" ∧
    (merge_deltas [{ call_type := some "function" }, { call_type := some "custom" }]).call_type
        = some "custom" := by
  refine ⟨?_, rfl, ?_, rfl⟩ <;> decide

/-- C4 (amended): for every sequence of tool-call deltas merged into one
`PendingToolCall`, the merged name is taken from the LAST delta that carries
a name and the type from the LAST delta that carries a type (last-wins, not
first-wins), while arguments are the concatenation of all argument fragments
in delta arrival order. -/
theorem c4_merge_last_wins (ds : List DeltaToolCall) :
    (merge_deltas ds).function_name = (delta_names ds).getLast? ∧
    (merge_deltas ds).call_type = (delta_types ds).getLast? ∧
    (merge_deltas ds).id = (delta_ids ds).getLast? ∧
    (merge_deltas ds).arguments = String.join (delta_args ds) := by
  obtain ⟨h1, h2, h3, h4⟩ := merge_foldl_spec ds {}
  refine ⟨?_, ?_, ?_, ?_⟩
  · rw [merge_deltas, h3, last_wins_none]
  · rw [merge_deltas, h2, last_wins_none]
  · rw [merge_deltas, h1, last_wins_none]
  · rw [merge_deltas, h4, str_empty_append]

/-! ## The outbound broadcast stream

The `broadcast::Sender<MessageResult>` behind `stream_tx:
Arc<RwLock<Option<Sender>>>` is modelled as an open flag plus the ordered
log of events actually delivered.  `send` on an open stream appends; when
`close()` has set the sender to `None`, `get_stream_sender()` fails and the
agent merely logs a warning, so the event is dropped — `send` on a closed
stream is the identity. -/

/-- Mirror of `MessageResult = Result<AgentMessage, AgentError>`;
`AgentError` is a newtype over `String`. -/
abbrev MessageResult := Except String AgentMessage

deriving instance DecidableEq for Except

/-- State of the broadcast stream: whether the sender is still present, and
the events delivered so far in order. -/
structure StreamState where
  isOpen : Bool
  events : List MessageResult
deriving DecidableEq, Repr

/-- Send an event: appended if the sender is present, dropped otherwise. -/
def StreamState.send (s : StreamState) (m : MessageResult) : StreamState :=
  if s.isOpen then { s with events := s.events ++ [m] } else s

/-- Mirror of `Agent::close`: drop the sender (`*tx = None`). -/
def StreamState.close (s : StreamState) : StreamState :=
  { s with isOpen := false }

/-- Stream at the start of a run: sender present, nothing delivered. -/
def initialStream : StreamState := { isOpen := true, events := [] }

theorem send_isOpen (s : StreamState) (m : MessageResult) :
    (s.send m).isOpen = s.isOpen := by
  unfold StreamState.send
  split <;> rfl

theorem send_events (s : StreamState) (m : MessageResult) :
    (s.send m).events = s.events ++ (if s.isOpen then [m] else []) := by
  unfold StreamState.send
  split <;> simp

/-! ## The message buffer (delta accumulator) -/

/-- Mirror of `MessageBuffer` in `agent.rs`.  The `last_flush : Instant`
field is wall-clock state driving `should_flush`; it is replaced by the
adversarial flush schedule threaded through `consume_chunks`, so the field
itself is omitted. -/
structure MessageBuffer where
  content : String
  tool_calls : List (String × PendingToolCall)
  message_id : Option String
  first_message_sent : Bool
deriving DecidableEq, Repr

/-- Mirror of `MessageBuffer::new`. -/
def MessageBuffer.new : MessageBuffer :=
  { content := "", tool_calls := [], message_id := none, first_message_sent := false }

/-- Mirror of `MessageBuffer::has_changes`. -/
def MessageBuffer.has_changes (b : MessageBuffer) : Bool :=
  !b.content.isEmpty || !b.tool_calls.isEmpty

/-- Option-wrapped content exactly as both flush and the final message build
it: `None` when the accumulated content is empty. -/
def contentOpt (s : String) : Option String :=
  if s.isEmpty then none else some s

/-- Tool calls included in an `InProgress` flush (`MessageBuffer::flush`):
`None` when no pending calls exist, otherwise only the pending calls whose
`function_name` has already arrived, materialized by `into_tool_call`. -/
def MessageBuffer.flushToolCalls (b : MessageBuffer) : Option (List ToolCall) :=
  if b.tool_calls.isEmpty then none
  else some ((b.tool_calls.map Prod.snd).filterMap fun p =>
    if p.function_name.isSome then some p.into_tool_call else none)

/-- Tool calls included in the final `Complete` assistant message
(`process_thread_with_depth`, final message assembly): every pending call is
materialized, named or not. -/
def MessageBuffer.finalToolCalls (b : MessageBuffer) : Option (List ToolCall) :=
  if b.tool_calls.isEmpty then none
  else some ((b.tool_calls.map Prod.snd).map PendingToolCall.into_tool_call)

/-- The `InProgress` snapshot sent by `MessageBuffer::flush`. -/
def MessageBuffer.flushMessage (b : MessageBuffer) (agentName : String) : AgentMessage :=
  .assistant b.message_id (contentOpt b.content) b.flushToolCalls
    .inProgress (some (!b.first_message_sent)) (some agentName)

/-- Mirror of `MessageBuffer::flush`: a no-op without changes; otherwise the
`InProgress` snapshot is sent (dropped if the stream is gone), the
first-message flag is set, and — crucially — neither `content` nor
`tool_calls` is cleared. -/
def MessageBuffer.flush (b : MessageBuffer) (agentName : String) (s : StreamState) :
    MessageBuffer × StreamState :=
  if !b.has_changes then (b, s)
  else ({ b with first_message_sent := true }, s.send (.ok (b.flushMessage agentName)))

/-! ## Streamed chunks and their consumption -/

/-- Delta part of one streamed chunk choice. -/
structure ChunkDelta where
  content : Option String := none
  tool_calls : Option (List DeltaToolCall) := none
deriving DecidableEq, Repr

/-- One choice of a streamed chunk. -/
structure ChunkChoice where
  delta : ChunkDelta
  finish_reason : Option String := none
deriving DecidableEq, Repr

/-- One streamed LLM chunk. -/
structure Chunk where
  id : String
  choices : List ChunkChoice
deriving DecidableEq, Repr

/-- Stand-in for `Uuid::new_v4().to_string()` in the tool-call id fallback.
The value is irrelevant to every claim; it only needs to be some string. -/
def freshUuid : String := "00000000-0000-0000-0000-000000000000"

/-- Association-list lookup mirroring `HashMap::get` on the pending map. -/
def lookupPending : List (String × PendingToolCall) → String → Option PendingToolCall
  | [], _ => none
  | (k, v) :: rest, key => if k = key then some v else lookupPending rest key

/-- The id a delta is routed to: the delta's own id, else the first existing
key (`buffer.tool_calls.keys().next()` — `HashMap` iteration order is
unspecified in Rust; the model uses insertion order), else a fresh uuid. -/
def delta_target_id (b : MessageBuffer) (tc : DeltaToolCall) : String :=
  match tc.id with
  | some i => i
  | none => match b.tool_calls.head? with
    | some kv => kv.1
    | none => freshUuid

/-- Mirror of the per-delta bookkeeping in the chunk loop: choose the target
id, then `entry(id).or_default().update_from_delta(...)`. -/
def apply_delta_tool_call (b : MessageBuffer) (tc : DeltaToolCall) : MessageBuffer :=
  match lookupPending b.tool_calls (delta_target_id b tc) with
  | some p =>
    { b with tool_calls := b.tool_calls.map fun kv =>
        if kv.1 = delta_target_id b tc then (kv.1, p.update_from_delta tc) else kv }
  | none =>
    { b with tool_calls :=
        b.tool_calls ++ [(delta_target_id b tc, PendingToolCall.update_from_delta {} tc)] }

/-- Pure accumulation part of one chunk iteration: record the message id,
append the content delta, fold the tool-call deltas. -/
def accumulate_choice (b : MessageBuffer) (cid : String) (choice : ChunkChoice) :
    MessageBuffer :=
  let b := { b with message_id := some cid }
  let b := match choice.delta.content with
    | some t => { b with content := b.content ++ t }
    | none => b
  match choice.delta.tool_calls with
  | some tcs => tcs.foldl apply_delta_tool_call b
  | none => b

/-- Processing of one `Ok` chunk inside the `while let` loop: skip when
`choices` is empty (`continue`, which also skips the flush check), else
accumulate `choices[0].delta` and flush if `should_flush()` answered true
(`do_flush` is that answer). -/
def process_chunk (name : String) (do_flush : Bool) (b : MessageBuffer) (s : StreamState)
    (c : Chunk) : MessageBuffer × StreamState :=
  match c.choices with
  | [] => (b, s)
  | choice :: _ =>
    let b := accumulate_choice b c.id choice
    if do_flush then b.flush name s else (b, s)

/-- The chunk-consumption loop of `process_thread_with_depth` (lines
727–797): stops with the transport error message on an `Err` chunk,
otherwise folds `process_chunk` over the stream.  `flush?` gives, per loop
iteration, the answer the 50 ms `should_flush` timer would give. -/
def consume_chunks (name : String) (flush? : Nat → Bool) :
    List (Except String Chunk) → MessageBuffer → StreamState → Nat →
    StreamState × Except String MessageBuffer
  | [], b, s, _ => (s, .ok b)
  | .error e :: _, _, s, _ =>
    (s, .error ("Error receiving chunk from LLM stream: " ++ e))
  | .ok c :: rest, b, s, i =>
    let bs := process_chunk name (flush? i) b s c
    consume_chunks name flush? rest bs.1 bs.2 (i + 1)

/-- Chunk consumption followed by the unconditional post-loop flush (line
800), yielding the buffer from which the final assistant message is built. -/
def stream_phase (name : String) (flush? : Nat → Bool) (cs : List (Except String Chunk))
    (s : StreamState) : StreamState × Except String MessageBuffer :=
  match consume_chunks name flush? cs MessageBuffer.new s 0 with
  | (s, .error e) => (s, .error e)
  | (s, .ok b) =>
    let bs := b.flush name s
    (bs.2, .ok bs.1)

/-- The final `Complete` assistant message of a step (lines 815–826). -/
def finalAssistantMessage (name : String) (b : MessageBuffer) : AgentMessage :=
  .assistant b.message_id (contentOpt b.content) b.finalToolCalls
    .complete (some false) (some name)

/-! ## C9: flush filters unnamed pending calls, the final message keeps all -/

theorem filterMap_if_eq_filter_map {α β : Type} (l : List α) (pred : α → Bool) (f : α → β) :
    (l.filterMap fun a => if pred a then some (f a) else none)
      = (l.filter pred).map f := by
  induction l with
  | nil => rfl
  | cons x xs ih =>
    by_cases h : pred x <;> simp [List.filterMap_cons, List.filter_cons, h, ih]

/-- C9: an `InProgress` flush includes exactly the pending tool calls whose
name has arrived, whereas the final `Complete` assistant message
materializes every pending call, and `into_tool_call` substitutes the empty
string for a missing id, name, or type while passing the accumulated
arguments through unchanged. -/
theorem c9_flush_vs_final :
    (∀ b : MessageBuffer,
      b.flushToolCalls =
        (if b.tool_calls.isEmpty then none
         else some (((b.tool_calls.map Prod.snd).filter fun p => p.function_name.isSome).map
           PendingToolCall.into_tool_call)) ∧
      b.finalToolCalls =
        (if b.tool_calls.isEmpty then none
         else some ((b.tool_calls.map Prod.snd).map PendingToolCall.into_tool_call))) ∧
    (∀ p : PendingToolCall,
      p.into_tool_call.id = p.id.getD "" ∧
      p.into_tool_call.function.name = p.function_name.getD "" ∧
      p.into_tool_call.call_type = p.call_type.getD "" ∧
      p.into_tool_call.function.arguments = p.arguments) := by
  constructor
  · intro b
    constructor
    · unfold MessageBuffer.flushToolCalls
      rw [filterMap_if_eq_filter_map]
    · rfl
  · intro p
    exact ⟨rfl, rfl, rfl, rfl⟩

/-! ## C7 support: content only ever grows, flushes never truncate -/

theorem apply_delta_preserves (b : MessageBuffer) (tc : DeltaToolCall) :
    (apply_delta_tool_call b tc).content = b.content ∧
    (apply_delta_tool_call b tc).message_id = b.message_id := by
  unfold apply_delta_tool_call
  cases lookupPending b.tool_calls (delta_target_id b tc) <;> exact ⟨rfl, rfl⟩

theorem foldl_apply_delta_preserves (tcs : List DeltaToolCall) :
    ∀ b : MessageBuffer,
      (tcs.foldl apply_delta_tool_call b).content = b.content ∧
      (tcs.foldl apply_delta_tool_call b).message_id = b.message_id := by
  induction tcs with
  | nil => intro b; exact ⟨rfl, rfl⟩
  | cons t ts ih =>
    intro b
    obtain ⟨h1, h2⟩ := ih (apply_delta_tool_call b t)
    obtain ⟨g1, g2⟩ := apply_delta_preserves b t
    exact ⟨by rw [List.foldl_cons, h1, g1], by rw [List.foldl_cons, h2, g2]⟩

theorem accumulate_choice_content (b : MessageBuffer) (cid : String) (choice : ChunkChoice) :
    ∃ t, (accumulate_choice b cid choice).content = b.content ++ t := by
  unfold accumulate_choice
  cases hc : choice.delta.content with
  | none =>
    cases ht : choice.delta.tool_calls with
    | none => exact ⟨"", (str_append_empty _).symm⟩
    | some tcs =>
      refine ⟨"", ?_⟩
      rw [(foldl_apply_delta_preserves tcs _).1, str_append_empty]
  | some t =>
    cases ht : choice.delta.tool_calls with
    | none => exact ⟨t, rfl⟩
    | some tcs => exact ⟨t, (foldl_apply_delta_preserves tcs _).1⟩

theorem flush_spec (b : MessageBuffer) (name : String) (s : StreamState) :
    (b.flush name s).1.content = b.content ∧
    (b.flush name s).1.message_id = b.message_id ∧
    (b.flush name s).1.tool_calls = b.tool_calls ∧
    (b.flush name s).2.isOpen = s.isOpen ∧
    ∃ new, (b.flush name s).2.events = s.events ++ new ∧
      ∀ ev ∈ new, ev = Except.ok (b.flushMessage name) := by
  unfold MessageBuffer.flush
  split
  · exact ⟨rfl, rfl, rfl, rfl, [], by simp, by simp⟩
  · refine ⟨rfl, rfl, rfl, send_isOpen _ _, ?_⟩
    refine ⟨if s.isOpen then [Except.ok (b.flushMessage name)] else [], send_events _ _, ?_⟩
    split <;> simp

theorem contentOpt_some {s c : String} (h : contentOpt s = some c) : c = s ∧ s ≠ "" := by
  unfold contentOpt at h
  split at h
  · exact absurd h (by simp)
  · next hne =>
    injection h with h
    refine ⟨h.symm, ?_⟩
    intro he
    subst he
    exact hne (by decide)

theorem contentOpt_of_ne {s : String} (h : s ≠ "") : contentOpt s = some s := by
  unfold contentOpt
  split
  · next he => exact absurd ((String.isEmpty_iff s).mp he) h
  · rfl

theorem process_chunk_spec (name : String) (fl : Bool) (b : MessageBuffer) (s : StreamState)
    (c : Chunk) :
    (∃ t, (process_chunk name fl b s c).1.content = b.content ++ t) ∧
    (process_chunk name fl b s c).2.isOpen = s.isOpen ∧
    ∃ new, (process_chunk name fl b s c).2.events = s.events ++ new ∧
      ∀ ev ∈ new, ∀ mid cc tcs init nm,
        ev = Except.ok (.assistant mid (some cc) tcs .inProgress init nm) →
        cc ≠ "" ∧ ∃ t, (process_chunk name fl b s c).1.content = cc ++ t := by
  obtain ⟨cid, choices⟩ := c
  cases choices with
  | nil =>
    exact ⟨⟨"", (str_append_empty _).symm⟩, rfl, [], by simp [process_chunk], by simp⟩
  | cons choice rest =>
    obtain ⟨t0, hacc⟩ := accumulate_choice_content b cid choice
    cases fl with
    | false =>
      exact ⟨⟨t0, hacc⟩, rfl, [], by simp [process_chunk], by simp⟩
    | true =>
      obtain ⟨f1, _, _, f4, new, f5, f6⟩ :=
        flush_spec (accumulate_choice b cid choice) name s
      refine ⟨⟨t0, by rw [show (process_chunk name true b s ⟨cid, choice :: rest⟩).1
          = ((accumulate_choice b cid choice).flush name s).1 from rfl, f1, hacc]⟩,
        f4, new, f5, ?_⟩
      intro ev hev mid cc tcs init nm hev2
      have hf := f6 ev hev
      rw [hf] at hev2
      injection hev2 with hev2
      have hmsg : (accumulate_choice b cid choice).flushMessage name =
          .assistant mid (some cc) tcs .inProgress init nm := hev2
      unfold MessageBuffer.flushMessage at hmsg
      injection hmsg with _ hcontent _ _ _ _
      obtain ⟨hcc, hne⟩ := contentOpt_some hcontent
      refine ⟨by rw [hcc]; exact hne, "", ?_⟩
      rw [show (process_chunk name true b s ⟨cid, choice :: rest⟩).1
          = ((accumulate_choice b cid choice).flush name s).1 from rfl, f1,
        str_append_empty, hcc]

theorem consume_chunks_spec (name : String) (flush? : Nat → Bool) :
    ∀ (cs : List (Except String Chunk)) (b : MessageBuffer) (s : StreamState) (i : Nat)
      (s' : StreamState) (b' : MessageBuffer),
      consume_chunks name flush? cs b s i = (s', .ok b') →
      (∃ t, b'.content = b.content ++ t) ∧
      s'.isOpen = s.isOpen ∧
      ∃ new, s'.events = s.events ++ new ∧
        ∀ ev ∈ new, ∀ mid cc tcs init nm,
          ev = Except.ok (.assistant mid (some cc) tcs .inProgress init nm) →
          cc ≠ "" ∧ ∃ t, b'.content = cc ++ t := by
  intro cs
  induction cs with
  | nil =>
    intro b s i s' b' h
    simp only [consume_chunks] at h
    injection h with h1 h2
    injection h2 with h2
    subst h1 h2
    exact ⟨⟨"", (str_append_empty _).symm⟩, rfl, [], by simp, by simp⟩
  | cons hd rest ih =>
    intro b s i s' b' h
    cases hd with
    | error e => simp [consume_chunks] at h
    | ok c =>
      simp only [consume_chunks] at h
      obtain ⟨⟨t1, ih1⟩, ih2, new1, ih3, ih4⟩ :=
        ih (process_chunk name (flush? i) b s c).1 (process_chunk name (flush? i) b s c).2
          (i + 1) s' b' h
      obtain ⟨⟨t0, p1⟩, p2, new0, p3, p4⟩ := process_chunk_spec name (flush? i) b s c
      refine ⟨⟨t0 ++ t1, ?_⟩, by rw [ih2, p2], new0 ++ new1, ?_, ?_⟩
      · rw [ih1, p1, str_append_assoc]
      · rw [ih3, p3, List.append_assoc]
      · intro ev hev mid cc tcs init nm hev2
        rcases List.mem_append.mp hev with h0 | h1
        · obtain ⟨hne, t2, hpc⟩ := p4 ev h0 mid cc tcs init nm hev2
          refine ⟨hne, t2 ++ t1, ?_⟩
          rw [ih1, hpc, str_append_assoc]
        · exact ih4 ev h1 mid cc tcs init nm hev2

/-- C7: for every step, whatever the chunk stream and the timing of the
50 ms flushes, every `InProgress` assistant snapshot emitted during the
step carries content that is a prefix of the final buffer content, and the
final `Complete` assistant message carries exactly that (non-empty) full
content: flushing never truncates or resets the accumulated content. -/
theorem c7_complete_extends_inprogress (name : String) (flush? : Nat → Bool)
    (cs : List (Except String Chunk)) (s s' : StreamState) (b : MessageBuffer)
    (h : stream_phase name flush? cs s = (s', .ok b)) :
    ∃ new, s'.events = s.events ++ new ∧
      ∀ ev ∈ new, ∀ mid cc tcs init nm,
        ev = Except.ok (.assistant mid (some cc) tcs .inProgress init nm) →
        (∃ t, b.content = cc ++ t) ∧
        (finalAssistantMessage name b).assistantContent = some b.content := by
  unfold stream_phase at h
  cases hc : consume_chunks name flush? cs MessageBuffer.new s 0 with
  | mk s0 r0 =>
    rw [hc] at h
    cases r0 with
    | error e => simp at h
    | ok b0 =>
      have h' : ((b0.flush name s0).2, (Except.ok (b0.flush name s0).1 :
          Except String MessageBuffer)) = (s', .ok b) := h
      injection h' with h1 h2
      injection h2 with h2
      obtain ⟨_, _, new0, c3, c4⟩ :=
        consume_chunks_spec name flush? cs MessageBuffer.new s 0 s0 b0 hc
      obtain ⟨f1, _, _, _, new1, f5, f6⟩ := flush_spec b0 name s0
      have hbc : b.content = b0.content := by rw [← h2, f1]
      refine ⟨new0 ++ new1, ?_, ?_⟩
      · rw [← h1, f5, c3, List.append_assoc]
      · intro ev hev mid cc tcs init nm hev2
        rcases List.mem_append.mp hev with h0 | h1'
        · obtain ⟨hne, t, hpc⟩ := c4 ev h0 mid cc tcs init nm hev2
          have hb : b.content = cc ++ t := by rw [hbc, hpc]
          refine ⟨⟨t, hb⟩, ?_⟩
          show contentOpt b.content = some b.content
          exact contentOpt_of_ne (by rw [hb]; exact str_append_ne_empty_left _ _ hne)
        · have hf := f6 ev h1'
          rw [hf] at hev2
          injection hev2 with hev2
          have hmsg : b0.flushMessage name =
              .assistant mid (some cc) tcs .inProgress init nm := hev2
          unfold MessageBuffer.flushMessage at hmsg
          injection hmsg with _ hcontent _ _ _ _
          obtain ⟨hcc, hne⟩ := contentOpt_some hcontent
          have hb : b.content = cc ++ "" := by rw [str_append_empty, hbc, hcc]
          refine ⟨⟨"", hb⟩, ?_⟩
          show contentOpt b.content = some b.content
          exact contentOpt_of_ne (by rw [hbc]; exact hne)

/-! ## JSON serialization of the unknown-tool error payload

`serde_json::json!({"error": err_msg}).to_string()` produces the compact
object with the string escaped by serde's rules: `"` and `\` get a
backslash, the control characters BS/TAB/LF/FF/CR get their short escapes,
and the remaining control characters become `\u00XX` with lowercase hex. -/

/-- Lowercase hex digit. -/
def hexDigit (n : Nat) : Char :=
  if n < 10 then Char.ofNat (48 + n) else Char.ofNat (87 + n)

/-- Escape one character the way `serde_json` renders it inside a string. -/
def jsonEscapeChar (c : Char) : String :=
  if c = Char.ofNat 34 then "\\\""
  else if c = Char.ofNat 92 then "\\\\"
  else if c = Char.ofNat 8 then "\\b"
  else if c = Char.ofNat 9 then "\\t"
  else if c = Char.ofNat 10 then "\\n"
  else if c = Char.ofNat 12 then "\\f"
  else if c = Char.ofNat 13 then "\\r"
  else if c.toNat < 32 then
    "\\u00" ++ String.singleton (hexDigit (c.toNat / 16))
      ++ String.singleton (hexDigit (c.toNat % 16))
  else String.singleton c

/-- Serde-style JSON string escaping. -/
def jsonEscape (s : String) : String :=
  String.join (s.data.map jsonEscapeChar)

/-- The compact rendering of `json!({"error": msg})`. -/
def jsonErrorObject (msg : String) : String :=
  "\x7b\"error\":\"" ++ jsonEscape msg ++ "\"\x7d"

/-! ## Tool execution and the dispatch loop -/

/-- Combined outcome of handling one registered tool call:
`serde_json::from_str` on the arguments failed, the executor returned
`Err`, or it succeeded and the result serialized to the given string. -/
inductive ExecOutcome
  | parseError (e : String)
  | execError (e : String)
  | success (result : String)

/-- Behaviour of one registered tool, as a function of the raw argument
text and the tool-call id (the two inputs the dispatch loop hands it). -/
abbrev ToolBehavior := String → String → ExecOutcome

/-- Association-list lookup mirroring `agent_tools.get(&name)`. -/
def lookup_tool : List (String × ToolBehavior) → String → Option ToolBehavior
  | [], _ => none
  | (k, v) :: rest, key => if k = key then some v else lookup_tool rest key

/-- The tool-dispatch loop of `process_thread_with_depth` (lines 859–1064),
with the Braintrust span plumbing absent (client not configured).  Returns
the stream, the tool messages pushed to `results` in order, and either the
fatal error or the `should_terminate` flag.

For each call in order: look the name up; for an unknown name emit and
record a synthetic error Tool message and continue; otherwise run the tool —
an argument-parse failure or executor error aborts the whole loop with the
formatted error; on success the Complete Tool message is emitted and
recorded, and if the name is in the terminating set the loop stops with
`should_terminate = true`. -/
def dispatch_tools (toolsMap : List (String × ToolBehavior)) (terminating : List String) :
    List ToolCall → StreamState → StreamState × List AgentMessage × Except String Bool
  | [], s => (s, [], .ok false)
  | tc :: rest, s =>
    match lookup_tool toolsMap tc.function.name with
    | some behavior =>
      match behavior tc.function.arguments tc.id with
      | .parseError e =>
        (s, [], .error ("Failed to parse tool arguments for "
          ++ tc.function.name ++ ": " ++ e))
      | .execError e =>
        (s, [], .error ("Tool execution error for " ++ tc.function.name ++ ": " ++ e))
      | .success result =>
        let toolMessage := AgentMessage.tool none result tc.id
          (some tc.function.name) .complete
        let s := s.send (.ok toolMessage)
        if terminating.contains tc.function.name then
          (s, [toolMessage], .ok true)
        else
          let out := dispatch_tools toolsMap terminating rest s
          (out.1, toolMessage :: out.2.1, out.2.2)
    | none =>
      let errorResult := AgentMessage.tool none
        (jsonErrorObject ("Attempted to call non-existent tool: " ++ tc.function.name))
        tc.id (some tc.function.name) .complete
      let s := s.send (.ok errorResult)
      let out := dispatch_tools toolsMap terminating rest s
      (out.1, errorResult :: out.2.1, out.2.2)

/-! ## LLM request composition (per step) -/

/-- Mirror of `litellm::ToolChoice` as far as the agent uses it. -/
inductive ToolChoice
  | auto
  | required
deriving DecidableEq, Repr

/-- Mirror of `litellm::Tool`: the `function` schema is an opaque JSON value,
modelled as a string. -/
structure Tool where
  tool_type : String
  function : String
deriving DecidableEq, Repr

/-- Mirror of `litellm::Metadata`. -/
structure Metadata where
  generation_name : String
  user_id : String
  session_id : String
  trace_id : String
deriving DecidableEq, Repr

/-- Mirror of the fields of `litellm::ChatCompletionRequest` the agent sets. -/
structure ChatCompletionRequest where
  model : String
  messages : List AgentMessage
  tools : Option (List Tool)
  tool_choice : Option ToolChoice
  stream : Option Bool
  metadata : Option Metadata
  reasoning_effort : Option String
deriving DecidableEq, Repr

/-- Request composition of `process_thread_with_depth` (lines 645–688): one
Developer message holding the mode prompt first, then the current thread
minus previous Developer messages; the enabled tools' schemas (`None` when
empty); `tool_choice = Required`; `stream = true`; metadata with generation
name `"agent"`, the thread's user id, the thread id as session id, and a
fresh trace id; reasoning effort `"medium"`. -/
def compose_llm_request (modeModel : String) (prompt : String) (thread : AgentThread)
    (tools : List Tool) : ChatCompletionRequest :=
  { model := modeModel
    messages := AgentMessage.developer prompt
      :: thread.messages.filter (fun m => !m.isDeveloper)
    tools := if tools.isEmpty then none else some tools
    tool_choice := some .required
    stream := some true
    metadata := some (Metadata.mk "agent" thread.user_id thread.id freshUuid)
    reasoning_effort := some "medium" }

/-- C8: every step's LLM request starts with exactly one Developer message
carrying the mode prompt, followed by the thread's messages with all
Developer messages filtered out, attaches the enabled tools' schemas only
when some tool is enabled, forces `tool_choice = Required`, and streams. -/
theorem c8_request_composition (modeModel prompt : String) (thread : AgentThread)
    (tools : List Tool) :
    (compose_llm_request modeModel prompt thread tools).messages
        = AgentMessage.developer prompt
          :: thread.messages.filter (fun m => !m.isDeveloper) ∧
    (compose_llm_request modeModel prompt thread tools).messages.countP
        AgentMessage.isDeveloper = 1 ∧
    (compose_llm_request modeModel prompt thread tools).tools
        = (if tools.isEmpty then none else some tools) ∧
    (compose_llm_request modeModel prompt thread tools).tool_choice = some .required ∧
    (compose_llm_request modeModel prompt thread tools).stream = some true ∧
    (compose_llm_request modeModel prompt thread tools).model = modeModel := by
  refine ⟨rfl, ?_, rfl, rfl, rfl, rfl⟩
  show (AgentMessage.developer prompt
      :: thread.messages.filter (fun m => !m.isDeveloper)).countP AgentMessage.isDeveloper = 1
  rw [List.countP_cons_of_pos _ _ (by rfl)]
  have hz : (thread.messages.filter (fun m => !m.isDeveloper)).countP
      AgentMessage.isDeveloper = 0 := by
    rw [List.countP_eq_zero]
    intro a ha
    have := (List.mem_filter.mp ha).2
    simp only [Bool.not_eq_true'] at this
    simp [this]
  rw [hz]

/-! ## The agent loop: one step and the bounded recursion -/

/-- Model of `ModeConfiguration` after it has been applied to the agent at
the start of a step: the prompt and model, the tool registry installed by
`tool_loader` (with behaviour for each registered tool), the schemas
`get_enabled_tools` returns for this step's state snapshot, and the
terminating-tool names.  State dynamics and enablement predicates are folded
into these per-step values, since every claim is about a fixed step or about
control flow that does not depend on how the snapshot was classified. -/
structure ModeConfigModel where
  prompt : String
  model : String
  toolsMap : List (String × ToolBehavior)
  enabledTools : List Tool
  terminating : List String

/-- Result of `stream_chat_completion`: either the stream failed to open, or
a finite sequence of chunk results. -/
inductive LLMResponse
  | openError (e : String)
  | chunks (cs : List (Except String Chunk))

/-- Oracles a run is parameterized by: the mode configuration per depth, the
LLM's answer per depth and request, and the per-iteration answer of the
50 ms `should_flush` timer. -/
structure StepEnv where
  mode : Nat → ModeConfigModel
  llm : Nat → ChatCompletionRequest → LLMResponse
  flushAt : Nat → Nat → Bool

/-- Outcome of one step body: the step finished (with success or a fatal
error), or the loop recurses at depth + 1 on the extended thread. -/
inductive StepOutcome
  | finished (s : StreamState) (r : Except String Unit)
  | recurse (s : StreamState) (t : AgentThread)

/-- Stream carried by a step outcome. -/
def StepOutcome.stream : StepOutcome → StreamState
  | .finished s _ => s
  | .recurse s _ => s

/-- The termination-or-recursion decision after tool dispatch (lines
1066–1083 and 1120–1133): a fatal dispatch error finishes the step with
that error; `should_terminate` finishes the trace (a no-op here), sends
`Done` and returns success; otherwise the loop recurses on the thread
extended with the tool results. -/
def after_dispatch (threadA : AgentThread)
    (out : StreamState × List AgentMessage × Except String Bool) : StepOutcome :=
  match out.2.2 with
  | .error e => .finished out.1 (.error e)
  | .ok true => .finished (out.1.send (.ok .done)) (.ok ())
  | .ok false => .recurse out.1 { threadA with messages := threadA.messages ++ out.2.1 }

/-- Body of one step of `process_thread_with_depth` below the depth check:
apply the mode configuration, compose and issue the LLM request (an open
failure finishes the step with the formatted error), consume the chunk
stream (a transport error finishes the step with that error), emit the
final assistant message and append it to the thread, then either recurse
directly (no tool calls) or dispatch the tool calls and decide. -/
def step_body (env : StepEnv) (name : String) (thread : AgentThread) (d : Nat)
    (s : StreamState) : StepOutcome :=
  let cfg := env.mode d
  let request := compose_llm_request cfg.model cfg.prompt thread cfg.enabledTools
  match env.llm d request with
  | .openError e => .finished s (.error ("Error starting LLM stream: " ++ e))
  | .chunks cs =>
    match stream_phase name (env.flushAt d) cs s with
    | (s, .error e) => .finished s (.error e)
    | (s, .ok b) =>
      let finalMsg := finalAssistantMessage name b
      let s := s.send (.ok finalMsg)
      let threadA : AgentThread := { thread with messages := thread.messages ++ [finalMsg] }
      match b.finalToolCalls with
      | some tcs => after_dispatch threadA (dispatch_tools cfg.toolsMap cfg.terminating tcs s)
      | none => .recurse s threadA

/-- The canned capacity-exceeded assistant message of the depth check
(lines 605–613). -/
def maxRecursionMessage (name : String) : AgentMessage :=
  .assistant (some "max_recursion_depth_message")
    (some ("I apologize, but I" ++ String.singleton (Char.ofNat 39)
      ++ "ve reached the maximum number of actions (15). Please try breaking your request into smaller parts."))
    none .complete none (some name)

/-- Mirror of `Agent::process_thread_with_depth` (with the trace client
absent): if the depth has reached 15, send the canned capacity message,
close the stream and return success; otherwise run the step body and either
return its result or recurse at depth + 1. -/
def process_thread_with_depth (env : StepEnv) (name : String) :
    Nat → AgentThread → StreamState → StreamState × Except String Unit :=
  fun d thread s =>
    if _h : 15 ≤ d then
      ((s.send (.ok (maxRecursionMessage name))).close, .ok ())
    else
      match step_body env name thread d s with
      | .finished s r => (s, r)
      | .recurse s th => process_thread_with_depth env name (d + 1) th s
termination_by d => 15 - d
decreasing_by omega

/-- Mirror of the task spawned by `Agent::process_thread_streaming` when the
shutdown signal does not fire: run the recursive processor from depth 0; on
failure send the formatted error event; finally attempt `Done` (which is
dropped if the stream has been closed). -/
def process_thread_streaming (env : StepEnv) (name : String) (thread : AgentThread) :
    StreamState :=
  match process_thread_with_depth env name 0 thread initialStream with
  | (s, .error e) => (s.send (.error ("Error processing thread: " ++ e))).send (.ok .done)
  | (s, .ok _) => s.send (.ok .done)

/-- Fuel-indexed executable twin of `process_thread_with_depth` that also
records the depths at which the step function was entered.  `none` only
when the fuel runs out before the loop finishes. -/
def process_thread_trace (env : StepEnv) (name : String) :
    Nat → Nat → AgentThread → StreamState →
    Option (StreamState × Except String Unit × List Nat)
  | 0, _, _, _ => none
  | fuel + 1, d, thread, s =>
    if 15 ≤ d then
      some ((s.send (.ok (maxRecursionMessage name))).close, .ok (), [d])
    else
      match step_body env name thread d s with
      | .finished s r => some (s, r, [d])
      | .recurse s th =>
        match process_thread_trace env name fuel (d + 1) th s with
        | some (s, r, ds) => some (s, r, d :: ds)
        | none => none

/-- The trace twin agrees with `process_thread_with_depth` whenever the fuel
covers the remaining depth budget. -/
theorem trace_agrees (env : StepEnv) (name : String) :
    ∀ (fuel d : Nat) (thread : AgentThread) (s : StreamState), 15 - d < fuel →
      (process_thread_trace env name fuel d thread s).map (fun t => (t.1, t.2.1))
        = some (process_thread_with_depth env name d thread s) := by
  intro fuel
  induction fuel with
  | zero => intro d thread s h; omega
  | succ fuel ih =>
    intro d thread s h
    rw [process_thread_with_depth]
    by_cases hd : 15 ≤ d
    · simp [process_thread_trace, hd]
    · simp only [process_thread_trace, if_neg hd, dif_neg hd]
      cases hstep : step_body env name thread d s with
      | finished s' r => simp
      | recurse s' th =>
        have hih := ih (d + 1) th s' (by omega)
        cases htr : process_thread_trace env name fuel (d + 1) th s' with
        | none => rw [htr] at hih; simp at hih
        | some out =>
          obtain ⟨s2, r2, ds2⟩ := out
          rw [htr] at hih
          dsimp only
          rw [htr]
          simpa using hih

/-! ## The stream is closed only by the depth cap -/

theorem send_closed {s : StreamState} (h : s.isOpen = false) (m : MessageResult) :
    s.send m = s := by
  unfold StreamState.send
  rw [h]
  simp

theorem getLast?_append_singleton (l : List α) (a : α) : (l ++ [a]).getLast? = some a :=
  List.getLast?_concat _

theorem consume_chunks_isOpen (name : String) (flush? : Nat → Bool) :
    ∀ (cs : List (Except String Chunk)) (b : MessageBuffer) (s : StreamState) (i : Nat),
      ((consume_chunks name flush? cs b s i).1).isOpen = s.isOpen := by
  intro cs
  induction cs with
  | nil => intro b s i; rfl
  | cons hd rest ih =>
    intro b s i
    cases hd with
    | error e => rfl
    | ok c =>
      show ((consume_chunks name flush? rest (process_chunk name (flush? i) b s c).1
        (process_chunk name (flush? i) b s c).2 (i + 1)).1).isOpen = s.isOpen
      rw [ih]
      exact (process_chunk_spec name (flush? i) b s c).2.1

theorem stream_phase_isOpen (name : String) (flush? : Nat → Bool)
    (cs : List (Except String Chunk)) (s : StreamState) :
    ((stream_phase name flush? cs s).1).isOpen = s.isOpen := by
  unfold stream_phase
  cases hc : consume_chunks name flush? cs MessageBuffer.new s 0 with
  | mk s0 r0 =>
    have h1 : s0.isOpen = s.isOpen := by
      have := consume_chunks_isOpen name flush? cs MessageBuffer.new s 0
      rw [hc] at this
      exact this
    cases r0 with
    | error e => exact h1
    | ok b0 =>
      show ((b0.flush name s0).2).isOpen = s.isOpen
      rw [(flush_spec b0 name s0).2.2.2.1]
      exact h1

theorem dispatch_tools_isOpen (toolsMap : List (String × ToolBehavior))
    (terminating : List String) :
    ∀ (tcs : List ToolCall) (s : StreamState),
      ((dispatch_tools toolsMap terminating tcs s).1).isOpen = s.isOpen := by
  intro tcs
  induction tcs with
  | nil => intro s; rfl
  | cons tc rest ih =>
    intro s
    simp only [dispatch_tools]
    cases hl : lookup_tool toolsMap tc.function.name with
    | none =>
      dsimp only
      rw [ih, send_isOpen]
    | some behavior =>
      dsimp only
      cases hb : behavior tc.function.arguments tc.id with
      | parseError e => rfl
      | execError e => rfl
      | success result =>
        dsimp only
        split
        · exact send_isOpen _ _
        · rw [ih, send_isOpen]

theorem after_dispatch_isOpen (threadA : AgentThread)
    (out : StreamState × List AgentMessage × Except String Bool) :
    ((after_dispatch threadA out).stream).isOpen = out.1.isOpen := by
  obtain ⟨s1, msgs, res⟩ := out
  cases res with
  | error e => rfl
  | ok b =>
    cases b with
    | true => exact send_isOpen _ _
    | false => rfl

theorem step_body_isOpen (env : StepEnv) (name : String) (thread : AgentThread) (d : Nat)
    (s : StreamState) :
    ((step_body env name thread d s).stream).isOpen = s.isOpen := by
  simp only [step_body]
  cases hr : env.llm d (compose_llm_request (env.mode d).model (env.mode d).prompt thread
      (env.mode d).enabledTools) with
  | openError e => rfl
  | chunks cs =>
    dsimp only
    have hspo := stream_phase_isOpen name (env.flushAt d) cs s
    set sp := stream_phase name (env.flushAt d) cs s with hsp
    clear_value sp
    obtain ⟨s0, r0⟩ := sp
    cases r0 with
    | error e => exact hspo
    | ok b =>
      dsimp only
      cases hf : b.finalToolCalls with
      | none =>
        show ((s0.send (.ok (finalAssistantMessage name b))).isOpen) = s.isOpen
        rw [send_isOpen]
        exact hspo
      | some tcs =>
        rw [after_dispatch_isOpen, dispatch_tools_isOpen, send_isOpen]
        exact hspo

/-- Along any traced run, either the stream stays open, or it was closed by
the depth cap: the result is then success and the last delivered event is
the canned capacity message. -/
theorem trace_open_or_cap (env : StepEnv) (name : String) :
    ∀ (fuel d : Nat) (thread : AgentThread) (s : StreamState)
      (out : StreamState × Except String Unit × List Nat),
      process_thread_trace env name fuel d thread s = some out →
      s.isOpen = true →
      out.1.isOpen = true ∨
        (out.1.isOpen = false ∧ out.2.1 = .ok () ∧
          out.1.events.getLast? = some (.ok (maxRecursionMessage name))) := by
  intro fuel
  induction fuel with
  | zero => intro d thread s out h; simp [process_thread_trace] at h
  | succ fuel ih =>
    intro d thread s out h hopen
    by_cases hd : 15 ≤ d
    · simp only [process_thread_trace, if_pos hd] at h
      injection h with h
      subst h
      right
      refine ⟨rfl, rfl, ?_⟩
      show ((s.send (.ok (maxRecursionMessage name))).events).getLast? = _
      rw [send_events, hopen, if_pos rfl]
      exact getLast?_append_singleton _ _
    · simp only [process_thread_trace, if_neg hd] at h
      cases hstep : step_body env name thread d s with
      | finished s' r =>
        rw [hstep] at h
        dsimp only at h
        injection h with h
        subst h
        left
        have hs := step_body_isOpen env name thread d s
        rw [hstep] at hs
        exact hs.trans hopen
      | recurse s' th =>
        rw [hstep] at h
        dsimp only at h
        have hopen' : s'.isOpen = true := by
          have hs := step_body_isOpen env name thread d s
          rw [hstep] at hs
          exact hs.trans hopen
        cases htr : process_thread_trace env name fuel (d + 1) th s' with
        | none => rw [htr] at h; simp at h
        | some out2 =>
          obtain ⟨s2, r2, ds2⟩ := out2
          rw [htr] at h
          dsimp only at h
          injection h with h
          subst h
          exact ih (d + 1) th s' (s2, r2, ds2) htr hopen'

/-- The open-or-capped invariant transported to the source-faithful
definition at depth 0. -/
theorem process_open_or_cap (env : StepEnv) (name : String) (thread : AgentThread) :
    (process_thread_with_depth env name 0 thread initialStream).1.isOpen = true ∨
      ((process_thread_with_depth env name 0 thread initialStream).1.isOpen = false ∧
       (process_thread_with_depth env name 0 thread initialStream).2 = .ok () ∧
       (process_thread_with_depth env name 0 thread initialStream).1.events.getLast?
          = some (.ok (maxRecursionMessage name))) := by
  have hb := trace_agrees env name 16 0 thread initialStream (by omega)
  cases htr : process_thread_trace env name 16 0 thread initialStream with
  | none => rw [htr] at hb; simp at hb
  | some out =>
    obtain ⟨s2, r2, ds2⟩ := out
    rw [htr] at hb
    dsimp only [Option.map] at hb
    injection hb with hb
    have h1 : (process_thread_with_depth env name 0 thread initialStream).1 = s2 := by
      rw [← hb]
    have h2 : (process_thread_with_depth env name 0 thread initialStream).2 = r2 := by
      rw [← hb]
    rw [h1, h2]
    exact trace_open_or_cap env name 16 0 thread initialStream (s2, r2, ds2) htr rfl

/-- C1 (amended): for every run spawned by `process_thread_streaming`, the
last event delivered on the broadcast stream is `Ok(Done)` — except when the
run ends through the depth cap, which closes the stream before the spawning
task attempts `Done`; on that path the `Done` send is dropped and the last
delivered event is the canned capacity-reached assistant message. -/
theorem c1_last_event_done_or_capacity (env : StepEnv) (name : String)
    (thread : AgentThread) :
    (process_thread_streaming env name thread).events.getLast? = some (.ok .done) ∨
    (process_thread_streaming env name thread).events.getLast?
        = some (.ok (maxRecursionMessage name)) := by
  unfold process_thread_streaming
  have hoc := process_open_or_cap env name thread
  cases hm : process_thread_with_depth env name 0 thread initialStream with
  | mk s r =>
    rw [hm] at hoc
    cases r with
    | error e =>
      left
      rcases hoc with hopen | ⟨_, habs, _⟩
      · dsimp only
        rw [send_events, show ((s.send (Except.error ("Error processing thread: " ++ e))).isOpen)
            = true from (send_isOpen _ _).trans hopen, if_pos rfl]
        exact getLast?_append_singleton _ _
      · exact absurd habs (by simp)
    | ok u =>
      rcases hoc with hopen | ⟨hclosed, _, hlast⟩
      · left
        dsimp only
        rw [send_events, hopen, if_pos rfl]
        exact getLast?_append_singleton _ _
      · right
        dsimp only
        rw [send_closed hclosed]
        exact hlast

/-- C2: once the dispatch loop reaches a tool call whose name the current
mode marked terminating and whose execution succeeds, the emitted `Complete`
Tool message is the loop's last action — the remaining calls are never
dispatched and the loop reports `should_terminate`; the step then sends
`Done` and finishes with success instead of recursing. -/
theorem c2_terminating_tool_stops_step
    (toolsMap : List (String × ToolBehavior)) (terminating : List String)
    (tc : ToolCall) (rest : List ToolCall) (s : StreamState)
    (behavior : ToolBehavior) (result : String)
    (hlookup : lookup_tool toolsMap tc.function.name = some behavior)
    (hexec : behavior tc.function.arguments tc.id = .success result)
    (hterm : terminating.contains tc.function.name = true) :
    dispatch_tools toolsMap terminating (tc :: rest) s =
      (s.send (.ok (AgentMessage.tool none result tc.id (some tc.function.name) .complete)),
       [AgentMessage.tool none result tc.id (some tc.function.name) .complete],
       .ok true) ∧
    (∀ (threadA : AgentThread) (s2 : StreamState) (msgs : List AgentMessage),
      after_dispatch threadA (s2, msgs, .ok true)
        = .finished (s2.send (.ok .done)) (.ok ())) := by
  constructor
  · simp only [dispatch_tools, hlookup, hexec, hterm]
    rfl
  · intro threadA s2 msgs
    rfl

/-- C3: any invocation of the step function at depth 15 or beyond sends the
canned capacity-exceeded assistant message, closes the stream and returns
success without running a step body (hence without recursing); and every
depth entered by a run started at depth 0 is at most 15. -/
theorem c3_depth_cap :
    (∀ (env : StepEnv) (name : String) (d : Nat) (thread : AgentThread) (s : StreamState),
      15 ≤ d →
      process_thread_with_depth env name d thread s
        = ((s.send (.ok (maxRecursionMessage name))).close, .ok ())) ∧
    (∀ (env : StepEnv) (name : String) (fuel : Nat) (thread : AgentThread) (s : StreamState)
      (out : StreamState × Except String Unit × List Nat),
      process_thread_trace env name fuel 0 thread s = some out →
      ∀ x ∈ out.2.2, x ≤ 15) := by
  constructor
  · intro env name d thread s hd
    rw [process_thread_with_depth]
    rw [dif_pos hd]
  · have general : ∀ (env : StepEnv) (name : String) (fuel : Nat), ∀ (d : Nat),
        d ≤ 15 → ∀ (thread : AgentThread) (s : StreamState)
        (out : StreamState × Except String Unit × List Nat),
        process_thread_trace env name fuel d thread s = some out →
        ∀ x ∈ out.2.2, x ≤ 15 := by
      intro env name fuel
      induction fuel with
      | zero => intro d _ thread s out h; simp [process_thread_trace] at h
      | succ fuel ih =>
        intro d hd thread s out h
        by_cases hcap : 15 ≤ d
        · simp only [process_thread_trace, if_pos hcap] at h
          injection h with h
          subst h
          intro x hx
          simp at hx
          omega
        · simp only [process_thread_trace, if_neg hcap] at h
          cases hstep : step_body env name thread d s with
          | finished s' r =>
            rw [hstep] at h
            dsimp only at h
            injection h with h
            subst h
            intro x hx
            simp at hx
            omega
          | recurse s' th =>
            rw [hstep] at h
            dsimp only at h
            cases htr : process_thread_trace env name fuel (d + 1) th s' with
            | none => rw [htr] at h; simp at h
            | some out2 =>
              obtain ⟨s2, r2, ds2⟩ := out2
              rw [htr] at h
              dsimp only at h
              injection h with h
              subst h
              intro x hx
              rcases List.mem_cons.mp hx with rfl | hx2
              · omega
              · exact ih (d + 1) (by omega) th s' (s2, r2, ds2) htr x hx2
    intro env name fuel thread s out h
    exact general env name fuel 0 (by omega) thread s out h

/-- C5: a tool call whose name is not in the registry never fails the loop:
a `Complete` Tool message whose content is the serialized
`{"error": "Attempted to call non-existent tool: <name>"}` object, carrying
the call's id, is emitted and recorded, and the loop continues with the
remaining tool calls, whose outcome (including the termination decision
passed on to the recursion) is unchanged. -/
theorem c5_unknown_tool_continues
    (toolsMap : List (String × ToolBehavior)) (terminating : List String)
    (tc : ToolCall) (rest : List ToolCall) (s : StreamState)
    (hlookup : lookup_tool toolsMap tc.function.name = none) :
    dispatch_tools toolsMap terminating (tc :: rest) s =
      ((dispatch_tools toolsMap terminating rest
          (s.send (.ok (AgentMessage.tool none
            (jsonErrorObject ("Attempted to call non-existent tool: " ++ tc.function.name))
            tc.id (some tc.function.name) .complete)))).1,
       AgentMessage.tool none
            (jsonErrorObject ("Attempted to call non-existent tool: " ++ tc.function.name))
            tc.id (some tc.function.name) .complete
         :: (dispatch_tools toolsMap terminating rest
          (s.send (.ok (AgentMessage.tool none
            (jsonErrorObject ("Attempted to call non-existent tool: " ++ tc.function.name))
            tc.id (some tc.function.name) .complete)))).2.1,
       (dispatch_tools toolsMap terminating rest
          (s.send (.ok (AgentMessage.tool none
            (jsonErrorObject ("Attempted to call non-existent tool: " ++ tc.function.name))
            tc.id (some tc.function.name) .complete)))).2.2) := by
  simp only [dispatch_tools, hlookup]

/-- C6: a parse failure on a registered tool's arguments, or an executor
error, aborts the dispatch loop at once with the formatted fatal error —
nothing further is dispatched — and the step finishes with that error
instead of recursing; the spawning task then turns the failure into an
`Err` event on the stream followed by `Ok(Done)`. -/
theorem c6_fatal_tool_errors :
    (∀ (toolsMap : List (String × ToolBehavior)) (terminating : List String)
      (tc : ToolCall) (rest : List ToolCall) (s : StreamState)
      (behavior : ToolBehavior) (e : String),
      lookup_tool toolsMap tc.function.name = some behavior →
      behavior tc.function.arguments tc.id = .parseError e →
      dispatch_tools toolsMap terminating (tc :: rest) s =
        (s, [], .error ("Failed to parse tool arguments for "
          ++ tc.function.name ++ ": " ++ e))) ∧
    (∀ (toolsMap : List (String × ToolBehavior)) (terminating : List String)
      (tc : ToolCall) (rest : List ToolCall) (s : StreamState)
      (behavior : ToolBehavior) (e : String),
      lookup_tool toolsMap tc.function.name = some behavior →
      behavior tc.function.arguments tc.id = .execError e →
      dispatch_tools toolsMap terminating (tc :: rest) s =
        (s, [], .error ("Tool execution error for " ++ tc.function.name ++ ": " ++ e))) ∧
    (∀ (threadA : AgentThread) (out : StreamState × List AgentMessage × Except String Bool)
      (e : String),
      out.2.2 = .error e → after_dispatch threadA out = .finished out.1 (.error e)) ∧
    (∀ (env : StepEnv) (name : String) (thread : AgentThread) (e : String),
      (process_thread_with_depth env name 0 thread initialStream).2 = .error e →
      (process_thread_streaming env name thread).events
        = (process_thread_with_depth env name 0 thread initialStream).1.events
          ++ [.error ("Error processing thread: " ++ e), .ok .done]) := by
  refine ⟨?_, ?_, ?_, ?_⟩
  · intro toolsMap terminating tc rest s behavior e hlookup hparse
    simp only [dispatch_tools, hlookup, hparse]
  · intro toolsMap terminating tc rest s behavior e hlookup hexec
    simp only [dispatch_tools, hlookup, hexec]
  · intro threadA out e hout
    obtain ⟨s1, msgs, res⟩ := out
    dsimp only at hout
    subst hout
    rfl
  · intro env name thread e herr
    have hoc := process_open_or_cap env name thread
    unfold process_thread_streaming
    cases hm : process_thread_with_depth env name 0 thread initialStream with
    | mk s r =>
      rw [hm] at hoc herr
      dsimp only at herr
      subst herr
      rcases hoc with hopen | ⟨_, habs, _⟩
      · dsimp only
        rw [send_events, show ((s.send (Except.error ("Error processing thread: " ++ e))).isOpen)
            = true from (send_isOpen _ _).trans hopen, if_pos rfl,
          send_events, hopen, if_pos rfl, List.append_assoc]
        rfl
      · exact absurd habs (by simp)

/-! ## `process_thread`: collecting the stream into a final message -/

/-- The `final_message.ok_or_else(...)` fallback of `Agent::process_thread`. -/
def finalOr : Option AgentMessage → Except String AgentMessage
  | some m => .ok m
  | none => .error "No final message received before Done signal"

/-- The receive loop of `Agent::process_thread` over the events a subscriber
receives in order: `Ok(Done)` breaks, any other `Ok` message replaces the
stored final message, an `Err` event is propagated, and channel exhaustion
ends the loop; then the stored message (or the no-final-message error) is
returned. -/
def collect_final_message :
    List MessageResult → Option AgentMessage → Except String AgentMessage
  | [], final => finalOr final
  | msg :: rest, final =>
    match msg with
    | .ok .done => finalOr final
    | .ok m => collect_final_message rest (some m)
    | .error e => .error e

/-- Mirror of `Agent::process_thread` as a function of the received events. -/
def process_thread (events : List MessageResult) : Except String AgentMessage :=
  collect_final_message events none

theorem collect_cons_ok (m : AgentMessage) (rest : List MessageResult)
    (acc : Option AgentMessage) (h : m ≠ .done) :
    collect_final_message (.ok m :: rest) acc = collect_final_message rest (some m) := by
  cases m with
  | done => exact absurd rfl h
  | developer c => rfl
  | user c => rfl
  | assistant a b c d e f => rfl
  | tool a b c d e => rfl

theorem collect_pre_ok (m : AgentMessage) (hm : m ≠ .done) :
    ∀ (pre : List MessageResult), (∀ x ∈ pre, ∃ m2, x = .ok m2 ∧ m2 ≠ .done) →
      ∀ (post : List MessageResult) (acc : Option AgentMessage),
        collect_final_message (pre ++ .ok m :: .ok .done :: post) acc = .ok m := by
  intro pre
  induction pre with
  | nil =>
    intro _ post acc
    rw [List.nil_append, collect_cons_ok m _ acc hm]
    rfl
  | cons x pre ih =>
    intro hx post acc
    obtain ⟨m2, rfl, hm2⟩ := hx x (List.mem_cons_self x pre)
    rw [List.cons_append, collect_cons_ok m2 _ acc hm2]
    exact ih (fun y hy => hx y (List.mem_cons_of_mem _ hy)) post (some m2)

theorem collect_pre_error (e : String) :
    ∀ (pre : List MessageResult), (∀ x ∈ pre, ∃ m2, x = .ok m2 ∧ m2 ≠ .done) →
      ∀ (post : List MessageResult) (acc : Option AgentMessage),
        collect_final_message (pre ++ .error e :: post) acc = .error e := by
  intro pre
  induction pre with
  | nil => intro _ post acc; rfl
  | cons x pre ih =>
    intro hx post acc
    obtain ⟨m2, rfl, hm2⟩ := hx x (List.mem_cons_self x pre)
    rw [List.cons_append, collect_cons_ok m2 _ acc hm2]
    exact ih (fun y hy => hx y (List.mem_cons_of_mem _ hy)) post (some m2)

/-- C10: `process_thread` returns the last non-`Done` `Ok` message received
before the `Done` marker; an `Err` event is propagated as the error result
(whatever follows it); and when `Done` arrives before any other message the
call returns the no-final-message error rather than a message. -/
theorem c10_process_thread_result :
    (∀ (pre post : List MessageResult) (m : AgentMessage),
      (∀ x ∈ pre, ∃ m2, x = .ok m2 ∧ m2 ≠ .done) → m ≠ .done →
      process_thread (pre ++ .ok m :: .ok .done :: post) = .ok m) ∧
    (∀ (pre post : List MessageResult) (e : String),
      (∀ x ∈ pre, ∃ m2, x = .ok m2 ∧ m2 ≠ .done) →
      process_thread (pre ++ .error e :: post) = .error e) ∧
    (∀ post : List MessageResult, process_thread (.ok .done :: post)
      = .error "No final message received before Done signal") := by
  refine ⟨?_, ?_, ?_⟩
  · intro pre post m hpre hm
    exact collect_pre_ok m hm pre hpre post none
  · intro pre post e hpre
    exact collect_pre_error e pre hpre post none
  · intro post
    rfl

/-! ## Concrete runs: the depth-cap scenario and per-claim witnesses -/

/-- One streamed chunk carrying only the text `"hi"` and a finish reason. -/
def capChunk : Chunk :=
  Chunk.mk "m1" [ChunkChoice.mk (ChunkDelta.mk (some "hi") none) (some "stop")]

/-- Environment realizing scenario 4's shape: every step's LLM answer is the
same text-only completion (the loop recurses after a tool-less assistant
message), no flush fires mid-stream, no tools. -/
def capEnv : StepEnv :=
  { mode := fun _ => ModeConfigModel.mk "p" "gpt-4" [] [] []
    llm := fun _ _ => .chunks [.ok capChunk]
    flushAt := fun _ _ => false }

/-- Input thread for the concrete runs. -/
def capThread : AgentThread := { id := "t1", user_id := "u1", messages := [.user "go"] }

/-- The `InProgress` snapshot each step of the capped run emits. -/
def capInProgressMsg : AgentMessage :=
  .assistant (some "m1") (some "hi") none .inProgress (some true) (some "buster")

/-- The `Complete` assistant message each step of the capped run emits. -/
def capCompleteMsg : AgentMessage :=
  .assistant (some "m1") (some "hi") none .complete (some false) (some "buster")

/-- The stream at the end of the capped run: closed, fifteen step pairs of
events followed by the capacity message — and no `Done`. -/
def capFinalStream : StreamState :=
  { isOpen := false
    events := (List.replicate 15 [Except.ok capInProgressMsg, Except.ok capCompleteMsg]).flatten
      ++ [Except.ok (maxRecursionMessage "buster")] }

/-- Depths entered by the capped run. -/
def capDepths : List Nat := [0, 1, 2, 3, 4, 5, 6, 7, 8, 9, 10, 11, 12, 13, 14, 15]

/-- C1 counterexample: on the depth-cap run the stream is closed before the
spawning task attempts `Done`, so the last event delivered is the
capacity-reached assistant message and NOT `Done` — the claim as stated is
false on this run. -/
theorem c1_counterexample :
    (process_thread_streaming capEnv "buster" capThread).events.getLast?
        = some (.ok (maxRecursionMessage "buster")) ∧
    (process_thread_streaming capEnv "buster" capThread).events.getLast?
        ≠ some (.ok .done) := by
  have hb := trace_agrees capEnv "buster" 16 0 capThread initialStream (by omega)
  rw [show process_thread_trace capEnv "buster" 16 0 capThread initialStream
      = some (capFinalStream, .ok (), capDepths) from rfl] at hb
  dsimp only [Option.map] at hb
  injection hb with hb
  have hstream : process_thread_streaming capEnv "buster" capThread = capFinalStream := by
    unfold process_thread_streaming
    rw [← hb]
    exact send_closed rfl _
  rw [hstream]
  have hlast : capFinalStream.events.getLast? = some (.ok (maxRecursionMessage "buster")) :=
    getLast?_append_singleton _ _
  refine ⟨hlast, ?_⟩
  rw [hlast]
  decide

/-- C3 witness: the capped run itself — at depth 15 the step is exactly
capacity-message-close-success, and every depth the run entered is ≤ 15. -/
theorem c3_witness :
    (15 ≤ 15 ∧ process_thread_with_depth capEnv "buster" 15 capThread initialStream
        = ((initialStream.send (.ok (maxRecursionMessage "buster"))).close, .ok ())) ∧
    (process_thread_trace capEnv "buster" 16 0 capThread initialStream
        = some (capFinalStream, .ok (), capDepths) ∧
      ∀ x ∈ capDepths, x ≤ 15) := by
  refine ⟨⟨le_refl 15,
    c3_depth_cap.1 capEnv "buster" 15 capThread initialStream (le_refl 15)⟩, rfl, ?_⟩
  exact c3_depth_cap.2 capEnv "buster" 16 capThread initialStream
    (capFinalStream, .ok (), capDepths) rfl

/-- Always-succeeding terminating tool used by the C2 witness. -/
def behFinish : ToolBehavior := fun _ _ => .success "42"

/-- Registry of the C2 witness. -/
def toolsC2 : List (String × ToolBehavior) := [("finish", behFinish)]

/-- Terminating call of the C2 witness. -/
def tcFin : ToolCall :=
  { id := "id1", function := { name := "finish", arguments := "\x7b\x7d" },
    call_type := "function" }

/-- A second call that must never be dispatched in the C2 witness. -/
def tcOther : ToolCall :=
  { id := "id2", function := { name := "other", arguments := "\x7b\x7d" },
    call_type := "function" }

/-- C2 witness: a concrete step whose first call is a successful terminating
tool; the second call is ignored and the step ends with `Done` + success. -/
theorem c2_witness :
    (lookup_tool toolsC2 "finish" = some behFinish ∧
      behFinish "\x7b\x7d" "id1" = .success "42" ∧
      ["finish"].contains "finish" = true) ∧
    (dispatch_tools toolsC2 ["finish"] [tcFin, tcOther] initialStream
      = (initialStream.send (.ok (AgentMessage.tool none "42" "id1" (some "finish") .complete)),
         [AgentMessage.tool none "42" "id1" (some "finish") .complete],
         .ok true) ∧
      ∀ (threadA : AgentThread) (s2 : StreamState) (msgs : List AgentMessage),
        after_dispatch threadA (s2, msgs, .ok true)
          = .finished (s2.send (.ok .done)) (.ok ())) :=
  ⟨⟨rfl, rfl, rfl⟩,
    c2_terminating_tool_stops_step toolsC2 ["finish"] tcFin [tcOther] initialStream
      behFinish "42" rfl rfl rfl⟩

/-- Hallucinated call of the C5 witness. -/
def tcMagic : ToolCall :=
  { id := "call_1", function := { name := "do_magic", arguments := "\x7b\x7d" },
    call_type := "function" }

/-- C5 witness: dispatching the unknown tool `do_magic` against an empty
registry produces exactly the `{"error":"Attempted to call non-existent
tool: do_magic"}` Tool message with the call's id, and the loop finishes the
(empty) remainder without failing. -/
theorem c5_witness :
    lookup_tool [] "do_magic" = none ∧
    jsonErrorObject ("Attempted to call non-existent tool: " ++ "do_magic")
      = "\x7b\"error\":\"Attempted to call non-existent tool: do_magic\"\x7d" ∧
    dispatch_tools [] [] [tcMagic] initialStream
      = ({ isOpen := true,
           events := [.ok (AgentMessage.tool none
             "\x7b\"error\":\"Attempted to call non-existent tool: do_magic\"\x7d"
             "call_1" (some "do_magic") .complete)] },
         [AgentMessage.tool none
             "\x7b\"error\":\"Attempted to call non-existent tool: do_magic\"\x7d"
             "call_1" (some "do_magic") .complete],
         .ok false) := by
  refine ⟨rfl, by decide, ?_⟩
  rw [c5_unknown_tool_continues [] [] tcMagic [] initialStream rfl]
  decide

/-- Tool whose arguments never parse, for the C6 witness. -/
def behParse : ToolBehavior := fun _ _ => .parseError "oops"

/-- Tool whose executor always errors, for the C6 witness. -/
def behExec : ToolBehavior := fun _ _ => .execError "bad tool"

/-- Registered call whose arguments do not parse, for the C6 witness. -/
def tcParse : ToolCall := ToolCall.mk "id1" (FunctionCall.mk "t" "\x7bbad") "function"

/-- Registered call whose executor errors, for the C6 witness. -/
def tcExec : ToolCall := ToolCall.mk "id1" (FunctionCall.mk "t" "\x7b\x7d") "function"

/-- Environment whose LLM stream fails to open, for the C6 witness. -/
def errEnv : StepEnv :=
  { mode := fun _ => ModeConfigModel.mk "p" "m" [] [] []
    llm := fun _ _ => .openError "boom"
    flushAt := fun _ _ => false }

/-- C6 witness: concrete parse-error and executor-error dispatches abort
with the formatted fatal errors, a failed dispatch finishes the step, and a
failing run ends with the `Err` event followed by `Ok(Done)`. -/
theorem c6_witness :
    (lookup_tool [("t", behParse)] "t" = some behParse ∧
      behParse "\x7bbad" "id1" = .parseError "oops" ∧
      dispatch_tools [("t", behParse)] [] [tcParse, tcOther] initialStream
        = (initialStream, [], .error "Failed to parse tool arguments for t: oops")) ∧
    (lookup_tool [("t", behExec)] "t" = some behExec ∧
      behExec "\x7b\x7d" "id1" = .execError "bad tool" ∧
      dispatch_tools [("t", behExec)] [] [tcExec, tcOther] initialStream
        = (initialStream, [], .error "Tool execution error for t: bad tool")) ∧
    ((initialStream, ([] : List AgentMessage),
        (.error "E" : Except String Bool)).2.2 = .error "E" ∧
      after_dispatch capThread (initialStream, [], .error "E")
        = .finished initialStream (.error "E")) ∧
    ((process_thread_with_depth errEnv "a" 0 capThread initialStream).2
        = .error "Error starting LLM stream: boom" ∧
      (process_thread_streaming errEnv "a" capThread).events
        = (process_thread_with_depth errEnv "a" 0 capThread initialStream).1.events
          ++ [.error ("Error processing thread: " ++ "Error starting LLM stream: boom"),
              .ok .done]) := by
  have hb := trace_agrees errEnv "a" 16 0 capThread initialStream (by omega)
  rw [show process_thread_trace errEnv "a" 16 0 capThread initialStream
      = some (initialStream, .error "Error starting LLM stream: boom", [0]) from rfl] at hb
  dsimp only [Option.map] at hb
  injection hb with hb
  have h2 : (process_thread_with_depth errEnv "a" 0 capThread initialStream).2
      = .error "Error starting LLM stream: boom" := by rw [← hb]
  refine ⟨⟨rfl, rfl, ?_⟩, ⟨rfl, rfl, ?_⟩, ⟨rfl, ?_⟩, h2, ?_⟩
  · exact c6_fatal_tool_errors.1 [("t", behParse)] [] tcParse [tcOther] initialStream
      behParse "oops" rfl rfl
  · exact c6_fatal_tool_errors.2.1 [("t", behExec)] [] tcExec [tcOther] initialStream
      behExec "bad tool" rfl rfl
  · exact c6_fatal_tool_errors.2.2.1 capThread (initialStream, [], .error "E") "E" rfl
  · exact c6_fatal_tool_errors.2.2.2 errEnv "a" capThread "Error starting LLM stream: boom" h2

/-- First chunk of the C7 witness. -/
def c7chunk1 : Chunk := { id := "m", choices := [{ delta := { content := some "He" } }] }

/-- Second chunk of the C7 witness. -/
def c7chunk2 : Chunk :=
  Chunk.mk "m" [ChunkChoice.mk (ChunkDelta.mk (some "llo") none) (some "stop")]

/-- First `InProgress` snapshot of the C7 witness run. -/
def c7msg1 : AgentMessage :=
  .assistant (some "m") (some "He") none .inProgress (some true) (some "a")

/-- Later `InProgress` snapshots of the C7 witness run. -/
def c7msg2 : AgentMessage :=
  .assistant (some "m") (some "Hello") none .inProgress (some false) (some "a")

/-- Stream after the C7 witness run. -/
def c7stream : StreamState :=
  { isOpen := true, events := [.ok c7msg1, .ok c7msg2, .ok c7msg2] }

/-- Buffer after the C7 witness run. -/
def c7buf : MessageBuffer :=
  { content := "Hello", tool_calls := [], message_id := some "m",
    first_message_sent := true }

/-- C7 witness: a flush-every-chunk run over `"He"`, `"llo"`; each emitted
`InProgress` content (`"He"`, `"Hello"`) is a prefix of the final content
`"Hello"` carried by the `Complete` message. -/
theorem c7_witness :
    stream_phase "a" (fun _ => true) [.ok c7chunk1, .ok c7chunk2] initialStream
      = (c7stream, .ok c7buf) ∧
    (∃ new, c7stream.events = initialStream.events ++ new ∧
      ∀ ev ∈ new, ∀ mid cc tcs init nm,
        ev = Except.ok (.assistant mid (some cc) tcs .inProgress init nm) →
        (∃ t, c7buf.content = cc ++ t) ∧
        (finalAssistantMessage "a" c7buf).assistantContent = some c7buf.content) :=
  ⟨rfl, c7_complete_extends_inprogress "a" (fun _ => true)
    [.ok c7chunk1, .ok c7chunk2] initialStream c7stream c7buf rfl⟩

/-- C10 witness: a concrete event sequence with a final answer before
`Done`, one with an error event, and one where `Done` arrives first. -/
theorem c10_witness :
    ((∀ x ∈ ([.ok (.user "q")] : List MessageResult), ∃ m2, x = .ok m2 ∧ m2 ≠ .done) ∧
      process_thread [.ok (.user "q"),
          .ok (.assistant none (some "ans") none .complete none none), .ok .done]
        = .ok (.assistant none (some "ans") none .complete none none)) ∧
    process_thread [.ok (.user "q"), .error "boom", .ok .done] = .error "boom" ∧
    process_thread [.ok .done, .ok (.user "late")]
      = .error "No final message received before Done signal" := by
  have hpre : ∀ x ∈ ([.ok (.user "q")] : List MessageResult),
      ∃ m2, x = .ok m2 ∧ m2 ≠ .done := by
    intro x hx
    rw [List.mem_singleton] at hx
    exact ⟨.user "q", hx, by decide⟩
  refine ⟨⟨hpre, ?_⟩, ?_, ?_⟩
  · exact c10_process_thread_result.1 [.ok (.user "q")] []
      (.assistant none (some "ans") none .complete none none) hpre (by decide)
  · exact c10_process_thread_result.2.1 [.ok (.user "q")] [.ok .done] "boom" hpre
  · exact c10_process_thread_result.2.2 [.ok (.user "late")]

end Buster
